import Mathlib

/-!  Shallow embedding of `dadmin.py` (andli/dadmin): catalog loading, display-name
resolution, fuzzy catalog search, the RCON connection paths and the item-give
command strategy, together with proofs of the specification claims.  All string
handling is modelled at the ASCII level, which covers the catalogs and commands
the program manipulates. -/

/-- Python dict assignment semantics on an insertion-ordered association list:
assigning to an existing key updates it in place, otherwise appends. -/
def dictInsert {α : Type} (d : List (String × α)) (k : String) (v : α) :
    List (String × α) :=
  if d.any (fun p => p.1 == k) then
    d.map (fun p => if p.1 == k then (k, v) else p)
  else d ++ [(k, v)]

/-- Python `str.title()` on ASCII text: an alphabetic character is uppercased when
the previous character is not alphabetic, lowercased otherwise. -/
def pyTitleAux : Bool → List Char → List Char
  | _, [] => []
  | prevAlpha, c :: rest =>
    if c.isAlpha then
      (if prevAlpha then c.toLower else c.toUpper) :: pyTitleAux true rest
    else c :: pyTitleAux false rest

/-- Python `str.title()` (ASCII model). -/
def pyTitle (s : String) : String := String.mk (pyTitleAux false s.toList)

/-- Python `str.split()` with no argument: split on runs of whitespace,
dropping empty tokens.  The accumulator holds the current token reversed. -/
def pySplitAux : List Char → List Char → List String
  | [], acc => if acc.isEmpty then [] else [String.mk acc.reverse]
  | c :: rest, acc =>
    if c == ' ' || c == '\t' || c == '\n' || c == '\r' then
      if acc.isEmpty then pySplitAux rest []
      else String.mk acc.reverse :: pySplitAux rest []
    else pySplitAux rest (c :: acc)

/-- Python `str.split()` with no argument. -/
def pySplit (s : String) : List String := pySplitAux s.toList []

/-- First regex pass of `camel_to_snake_case`:
`re.sub("(.)([A-Z][a-z]+)", r"\1_\2", name)`.  A match needs any character
except a newline, an uppercase letter, and at least one lowercase letter; the
scan resumes after the greedy lowercase run. -/
def snakePassOne : List Char → List Char
  | [] => []
  | [c] => [c]
  | c :: d :: rest =>
    if c != '\n' && d.isUpper && (match rest with | e :: _ => e.isLower | [] => false) then
      c :: '_' :: d :: (rest.takeWhile Char.isLower ++ snakePassOne (rest.dropWhile Char.isLower))
    else
      c :: snakePassOne (d :: rest)
termination_by l => l.length
decreasing_by
  · simp only [List.length_cons]
    have h := (List.dropWhile_sublist Char.isLower (l := rest)).length_le
    omega
  · simp only [List.length_cons]
    omega

/-- Second regex pass of `camel_to_snake_case`:
`re.sub("([a-z0-9])([A-Z])", r"\1_\2", s1)`. -/
def snakePassTwo : List Char → List Char
  | [] => []
  | [c] => [c]
  | a :: b :: rest =>
    if (a.isLower || a.isDigit) && b.isUpper then a :: '_' :: b :: snakePassTwo rest
    else a :: snakePassTwo (b :: rest)
termination_by l => l.length
decreasing_by
  · simp only [List.length_cons]
    omega
  · simp only [List.length_cons]
    omega

/-- Function `camel_to_snake_case` from dadmin.py: the two regex substitution passes
followed by `.lower()`. -/
def camel_to_snake_case (name : String) : String :=
  String.mk ((snakePassTwo (snakePassOne name.toList)).map Char.toLower)

/-- Bool test that the first list is a prefix of the second. -/
def listStartsWith : List Char → List Char → Bool
  | [], _ => true
  | _ :: _, [] => false
  | a :: as, b :: bs => a == b && listStartsWith as bs

/-- Python `str.replace` on character lists, driven by a fuel counter (always
called with fuel at least the list length): replace non-overlapping occurrences
of a nonempty pattern left to right. -/
def pyReplaceFuel (pat rep : List Char) : Nat → List Char → List Char
  | 0, l => l
  | fuel + 1, l =>
    match l with
    | [] => []
    | c :: rest =>
      if !pat.isEmpty && listStartsWith pat l then
        rep ++ pyReplaceFuel pat rep fuel (List.drop (pat.length - 1) rest)
      else
        c :: pyReplaceFuel pat rep fuel rest

/-- Python `old.replace(pat, rep)` (nonempty pattern). -/
def pyReplace (s pat rep : String) : String :=
  String.mk (pyReplaceFuel pat.toList rep.toList s.toList.length s.toList)

/-- Python `str.lower()` (ASCII model). -/
def pyLower (s : String) : String := String.mk (s.toList.map Char.toLower)

/-- One catalog entry as produced by `load_data`: the `(displayName, canonicalId)`
tuple, with the optional effect category tag (`"good"`/`"bad"`) in third position. -/
structure CatalogEntry where
  displayName : String
  canonicalId : String
  category : Option String
deriving DecidableEq

/-- The `TYPED_DATA` dict: catalog type name to ordered entry list. -/
abbrev TypedData := List (String × List CatalogEntry)

/-- Python `TYPED_DATA.get(data_type, [])`. -/
def tdGet (td : TypedData) (dataType : String) : List CatalogEntry :=
  (td.lookup dataType).getD []

/-- One record of a parsed `data/*.json` file, with the fields `load_data`
inspects; a field absent from the JSON object is `none`. -/
structure RawEntry where
  name : Option String
  displayName : Option String
  type : Option String
deriving DecidableEq

/-- The data directory as seen by `load_data`: file name to parsed contents,
`none` when the file is missing (`FileNotFoundError`). -/
abbrev DataDir := String → Option (List RawEntry)

/-- The effect branch of `load_data`: entries with both `name` and `displayName`,
keeping the `type` field with default `"good"`. -/
def effectEntry (r : RawEntry) : Option CatalogEntry :=
  match r.name, r.displayName with
  | some n, some d => some ⟨d, "minecraft:" ++ camel_to_snake_case n, some (r.type.getD "good")⟩
  | _, _ => none

/-- The item/enchantment branch of `load_data`: entries with both `name` and
`displayName`, no category tag. -/
def plainEntry (r : RawEntry) : Option CatalogEntry :=
  match r.name, r.displayName with
  | some n, some d => some ⟨d, "minecraft:" ++ camel_to_snake_case n, none⟩
  | _, _ => none

/-- The per-type transformation of `load_data` applied to a parsed file. -/
def loadEntries (typename : String) (raw : List RawEntry) : List CatalogEntry :=
  if typename = "effect" then raw.filterMap effectEntry else raw.filterMap plainEntry

/-- What `load_data` stores for one type: the transformed file contents, or the
empty catalog when the file is missing. -/
def fileCatalog (dir : DataDir) (typename : String) : List CatalogEntry :=
  match dir (typename ++ "s.json") with
  | some raw => loadEntries typename raw
  | none => []

/-- Function `load_data` from dadmin.py: build the typed-data dict over the three
supported type names. -/
def load_data (dir : DataDir) : TypedData :=
  (["item", "effect", "enchantment"]).foldl
    (fun data typename => dictInsert data typename (fileCatalog dir typename)) []

/-- The dict comprehension `{entry[0]: entry[1] for entry in entries}` followed by
`.get name`: iterating in order with overwrite means the last entry with the
given display name wins. -/
def entryMapLookup (entries : List CatalogEntry) (displayName : String) : Option String :=
  entries.foldl (fun acc e => if e.displayName = displayName then some e.canonicalId else acc) none

/-- Function `get_minecraft_id` from dadmin.py: display-name lookup with the
`minecraft:<lowercased, spaces to underscores>` fallback. -/
def get_minecraft_id (td : TypedData) (displayName dataType : String) : String :=
  (entryMapLookup (tdGet td dataType) displayName).getD
    ("minecraft:" ++ pyReplace (pyLower displayName) " " "_")

/-- Modelled from the spec: `fuzzywuzzy.utils.full_process`, applied by
`process.extractBests` to the query and every label, is not part of this
repository's sources.  It keeps letters, digits and underscores, replaces every
other character with a space, lowercases, and strips outer spaces. -/
def fullProcess (s : String) : String :=
  let replaced := s.toList.map (fun c => if c.isAlphanum || c == '_' then c else ' ')
  let lowered := replaced.map Char.toLower
  String.mk (((lowered.dropWhile (fun c => c == ' ')).reverse.dropWhile (fun c => c == ' ')).reverse)

/-- Longest-common-subsequence recursion, driven by a fuel counter (always
called with fuel at least the sum of the lengths, so the fuel never runs out;
the fuel keeps the recursion structural). -/
def lcsLenFuel : Nat → List Char → List Char → Nat
  | 0, _, _ => 0
  | _ + 1, [], _ => 0
  | _ + 1, _ :: _, [] => 0
  | fuel + 1, a :: as, b :: bs =>
    if a = b then lcsLenFuel fuel as bs + 1
    else max (lcsLenFuel fuel (a :: as) bs) (lcsLenFuel fuel as (b :: bs))

/-- Longest common subsequence length, the edit-distance core of the
similarity ratio. -/
def lcsLen (a b : List Char) : Nat := lcsLenFuel (a.length + b.length) a b

/-- Modelled from the spec: the edit-distance-derived similarity of two
fragments, normalized to 0–100 and rounded to the nearest integer
(`2 * matches / total` scaled by 100). -/
def simScore (a b : List Char) : Nat :=
  if a.length + b.length = 0 then 0
  else (2 * (200 * lcsLen a b) + (a.length + b.length)) / (2 * (a.length + b.length))

/-- Similarity of the shorter fragment against every window of its length in the
longer fragment. -/
def windowScores (shorter longer : List Char) : List Nat :=
  (List.range (longer.length - shorter.length + 1)).map
    (fun i => simScore shorter ((longer.drop i).take shorter.length))

/-- Modelled from the spec: `fuzzywuzzy.fuzz.partial_ratio` is not part of this
repository's sources.  An empty side scores 0 (`check_empty_string`); otherwise
the score is the best similarity of the shorter string against every contiguous
window of the longer string of the shorter string's length. -/
def partialSim (q l : String) : Nat :=
  let a := q.toList
  let b := l.toList
  if a.length = 0 || b.length = 0 then 0
  else
    let shorter := if a.length ≤ b.length then a else b
    let longer := if a.length ≤ b.length then b else a
    (windowScores shorter longer).foldl max 0

/-- The score `process.extractBests` assigns a label: both sides preprocessed,
then the partial-similarity metric. -/
def matchScore (query label : String) : Nat :=
  partialSim (fullProcess query) (fullProcess label)

/-- Stable descending insertion by score: the new element goes in front of the
first element whose score is not larger. -/
def ordInsertDesc (x : String × Nat) : List (String × Nat) → List (String × Nat)
  | [] => [x]
  | y :: rest => if y.2 ≤ x.2 then x :: y :: rest else y :: ordInsertDesc x rest

/-- Stable sort by score descending (equal scores keep their input order). -/
def sortScoresDesc : List (String × Nat) → List (String × Nat)
  | [] => []
  | x :: rest => ordInsertDesc x (sortScoresDesc rest)

/-- Every label paired with its score, in catalog order
(`process.extractWithoutOrder`). -/
def scoredLabels (query : String) (labels : List String) : List (String × Nat) :=
  labels.map (fun l => (l, matchScore query l))

/-- Modelled from the spec: `fuzzywuzzy.process.extractBests` is not part of this
repository's sources.  Its `heapq.nlargest(limit, ...)` selection is a stable
descending ranking by score truncated at `limit`. -/
def extractBests (query : String) (labels : List String) (limit : Nat) :
    List (String × Nat) :=
  (sortScoresDesc (scoredLabels query labels)).take limit

/-- The label list `[entry[0] for entry in entries]` of a catalog type. -/
def catalogLabels (td : TypedData) (dataType : String) : List String :=
  (tdGet td dataType).map (fun e => e.displayName)

/-- Function `fuzzy_search_data` from dadmin.py: rank the whole catalog, truncate at
`limit`, then keep the results scoring strictly above `min_score`. -/
def fuzzy_search_data (td : TypedData) (query dataType : String) (limit : Nat)
    (minScore : Int) : List (String × Nat) :=
  (extractBests query (catalogLabels td dataType) limit).filter
    (fun p => decide (minScore < (p.2 : Int)))

/-- Follows the spec's words: the number of catalog labels scoring strictly
above the threshold. -/
def countAboveThreshold (td : TypedData) (query dataType : String) (minScore : Int) : Nat :=
  (scoredLabels query (catalogLabels td dataType)).countP
    (fun p => decide (minScore < (p.2 : Int)))

/-- The configuration dict handed to the connection code: the key/value pairs of
`server_config.txt` plus the `_config_found` flag. -/
structure RconConfig where
  entries : List (String × String)
  configFound : Bool
deriving DecidableEq

/-- Python `config.get(key)` with the falsiness test used for required settings:
a missing key and an empty value are both "not set". -/
def cfgGet (cfg : RconConfig) (key : String) : String :=
  (cfg.entries.lookup key).getD ""

/-- The `missing_settings` list comprehension of `connect_rcon`. -/
def missingSettings (cfg : RconConfig) : List String :=
  (["host", "port", "password"]).filter (fun s => cfgGet cfg s == "")

/-- Outcome of the socket layer during `test_connection`: DNS resolution raised
`socket.gaierror`, or `connect_ex` returned an error indicator (0 on success,
an errno otherwise), or some other exception was raised. -/
inductive ProbeOutcome where
  | dnsFailure : String → ProbeOutcome
  | connectResult : Int → ProbeOutcome
  | otherError : String → ProbeOutcome
deriving DecidableEq

/-- Function `test_connection` from dadmin.py: the lightweight TCP reachability probe
(resolve, connect, immediately close) and the message it reports for each
socket outcome. -/
def test_connection (host : String) (port : Nat) (outcome : ProbeOutcome) :
    Bool × String :=
  match outcome with
  | .dnsFailure e => (false, "DNS resolution failed for " ++ host ++ ": " ++ e)
  | .connectResult r =>
    if r = 0 then (true, "Connection successful")
    else (false, "Port " ++ toString port ++ " is not accessible")
  | .otherError e => (false, "Connection test failed: " ++ e)

/-- One `MCRcon` session: the identity of the constructed connection object and
socket, plus the endpoint it was built from. -/
structure RconSession where
  sid : Nat
  host : String
  port : Nat
  password : String
deriving DecidableEq

/-- Observable connection-level actions of the client code. -/
inductive RconEvent where
  | probe : String → Nat → RconEvent
  | sessionConnect : Nat → RconEvent
  | sessionDisconnect : Nat → RconEvent
  | sessionCommand : Nat → String → RconEvent
deriving DecidableEq

/-- Environment of one `connect_rcon` call: what the probe observes, whether
`MCRcon.connect()` succeeds, and the identity of the freshly constructed
`MCRcon` object. -/
structure ConnectWorld where
  probeOutcome : ProbeOutcome
  rconConnectOk : Bool
  freshSid : Nat
deriving DecidableEq

/-- Python `int(...)` on the digit strings the config parse step accepts:
fold the decimal digits (non-numeric ports raise in Python before the probe and
are outside the claims considered here). -/
def pyToNat (s : String) : Nat :=
  s.toList.foldl (fun n c => n * 10 + (c.toNat - 48)) 0

/-- Method `MinecraftAdminApp.connect_rcon`: config checks, the reachability probe, and
on success the construction of a brand-new `MCRcon` session.  Returns the new
session (or `none`) together with the connection actions performed. -/
def connect_rcon (cfg : RconConfig) (w : ConnectWorld) :
    Option RconSession × List RconEvent :=
  if cfg.configFound = false then (none, [])
  else if missingSettings cfg ≠ [] then (none, [])
  else if (test_connection (cfgGet cfg "host") (pyToNat (cfgGet cfg "port"))
      w.probeOutcome).1 = false then
    (none, [.probe (cfgGet cfg "host") (pyToNat (cfgGet cfg "port"))])
  else if w.rconConnectOk then
    (some ⟨w.freshSid, cfgGet cfg "host", pyToNat (cfgGet cfg "port"), cfgGet cfg "password"⟩,
      [.probe (cfgGet cfg "host") (pyToNat (cfgGet cfg "port")),
       .sessionConnect w.freshSid])
  else
    (none, [.probe (cfgGet cfg "host") (pyToNat (cfgGet cfg "port")),
      .sessionConnect w.freshSid])

/-- The connection-relevant state of `MinecraftAdminApp`: the current session
(`self.mcr`), possibly `None`. -/
structure AppState where
  mcr : Option RconSession
deriving DecidableEq

/-- Method `MinecraftAdminApp.reconnect_rcon`: aside from widget updates, its whole
effect is `self.mcr = self.connect_rcon()` — the prior session is replaced by
the result of a fresh connection attempt. -/
def reconnect_rcon (_st : AppState) (cfg : RconConfig) (w : ConnectWorld) :
    AppState × List RconEvent :=
  let result := connect_rcon cfg w
  ({ mcr := result.1 }, result.2)

/-- Recognizer for session-teardown actions. -/
def isDisconnectEvent : RconEvent → Bool
  | .sessionDisconnect _ => true
  | _ => false

/-- The settings dialog's connection test (connect, run `list`, disconnect) —
the one code path that does issue an explicit disconnect. -/
def settingsTestEvents (sid : Nat) : List RconEvent :=
  [.sessionConnect sid, .sessionCommand sid "list", .sessionDisconnect sid]

/-- Python `str.isdigit()` on ASCII: nonempty and all digits. -/
def pyIsDigitStr (s : String) : Bool :=
  !(s == "") && s.toList.all Char.isDigit

/-- Function `validate_command_inputs` from dadmin.py. -/
def validate_command_inputs (name player amountOrDuration : String) : Bool :=
  !(name == "") && !(player == "") && pyIsDigitStr amountOrDuration

/-- Bool test that `needle` occurs inside the character list. -/
def listContains (needle : List Char) : List Char → Bool
  | [] => listStartsWith needle []
  | b :: bs => listStartsWith needle (b :: bs) || listContains needle bs

/-- Python `needle in hay` on strings. -/
def hasSubstr (hay needle : String) : Bool := listContains needle.toList hay.toList

/-- The known failure substrings `send_action_command` looks for in a give
response. -/
def failureResponse (resp : String) : Bool :=
  hasSubstr resp "Expected" || hasSubstr resp "Invalid" || hasSubstr resp "Unknown"

/-- The operator inputs of the item branch of `send_action_command`. -/
structure GiveItemInputs where
  player : String
  itemName : String
  amount : String
  applyEnchants : Bool
  enchants : List (String × Int)
deriving DecidableEq

/-- The `component_enchants` list: each selected enchantment resolved, with the
`minecraft:` prefix removed and the level appended. -/
def enchantComponents (td : TypedData) (enchants : List (String × Int)) : List String :=
  enchants.map (fun pr =>
    (pyReplace (get_minecraft_id td pr.1 "enchantment") "minecraft:" "") ++ ":" ++ toString pr.2)

/-- The plain `/give` command. -/
def plainGiveCmd (player resolved amount : String) : String :=
  "/give " ++ player ++ " " ++ resolved ++ " " ++ amount

/-- The data-component `/give` command carrying the enchantment list. -/
def enchantedGiveCmd (td : TypedData) (player resolved amount : String)
    (enchants : List (String × Int)) : String :=
  "/give " ++ player ++ " " ++ resolved ++ "[enchantments=\x7b" ++
    String.intercalate "," (enchantComponents td enchants) ++ "\x7d] " ++ amount

/-- The item branch of `MinecraftAdminApp.send_action_command`, from input
validation to the status message.  `responder` is the server: it maps a command
to the `(success, response)` pair of `execute_rcon_command`.  Returns the
commands sent, in order, and the final status text. -/
def send_item_command (td : TypedData) (connected : Bool) (inp : GiveItemInputs)
    (responder : String → Bool × String) : List String × String :=
  if !(validate_command_inputs inp.itemName inp.player inp.amount) then
    ([], "⚠️ Fill all fields before sending")
  else
    let resolved := get_minecraft_id td inp.itemName "item"
    if !connected then ([], "❌ No server connection")
    else
      let useEnchants := inp.applyEnchants && !inp.enchants.isEmpty
      let cmd := if useEnchants then enchantedGiveCmd td inp.player resolved inp.amount inp.enchants
                 else plainGiveCmd inp.player resolved inp.amount
      let r1 := responder cmd
      if !r1.1 then ([cmd], r1.2)
      else if failureResponse r1.2 && useEnchants then
        let basic := plainGiveCmd inp.player resolved inp.amount
        let r2 := responder basic
        if !r2.1 then ([cmd, basic], r2.2)
        else ([cmd, basic],
          "⚠️ Item given without enchantments: " ++ inp.itemName ++ " to " ++ inp.player)
      else
        let enchantText := if useEnchants then
            " with " ++ toString inp.enchants.length ++ " enchantments"
          else ""
        ([cmd], "✅ Item given: " ++ inp.itemName ++ " x" ++ inp.amount ++ " to " ++
          inp.player ++ enchantText)

/-- One step of the `load_locations_from_config` loop. -/
def locationStep (locs : List (String × String)) (kv : String × String) :
    List (String × String) :=
  if !(kv.1.startsWith "location_") then locs
  else if kv.1.drop 9 == "" then locs
  else if (pySplit (pyReplace kv.2 "," " ")).length < 3 then locs
  else dictInsert locs (pyTitle (pyReplace (kv.1.drop 9) "_" " "))
    (String.intercalate " " ((pySplit (pyReplace kv.2 "," " ")).take 3))

/-- Function `load_locations_from_config` from dadmin.py. -/
def load_locations_from_config (config : List (String × String)) :
    List (String × String) :=
  let locations := config.foldl locationStep []
  if locations = [] then [("Main Spawn", "0 64 0")] else locations

/-- Follows the claim's words: a config key contributes a location exactly when
it starts with `location_` with a nonempty remainder and its value splits into
at least 3 tokens. -/
def qualifiesLocation (kv : String × String) : Bool :=
  kv.1.startsWith "location_" && !(kv.1.drop 9 == "") &&
    decide (3 ≤ (pySplit (pyReplace kv.2 "," " ")).length)

/-- The location binding a qualifying config key produces: the humanized name
and the first 3 tokens joined by spaces. -/
def locationBinding (kv : String × String) : String × String :=
  (pyTitle (pyReplace (kv.1.drop 9) "_" " "),
   String.intercalate " " ((pySplit (pyReplace kv.2 "," " ")).take 3))

/-- Sample catalog (the spec's ranking example) used by concrete witnesses. -/
def tdSample : TypedData :=
  [("item", [⟨"Diamond Sword", "minecraft:diamond_sword", none⟩,
             ⟨"Diamond Pickaxe", "minecraft:diamond_pickaxe", none⟩,
             ⟨"Iron Sword", "minecraft:iron_sword", none⟩]),
   ("enchantment", [⟨"Sharpness", "minecraft:sharpness", none⟩])]

/-- Sample live session for the reconnect scenario. -/
def sessionSample : RconSession := ⟨0, "localhost", 25575, "pw"⟩

/-- Sample app state holding a live session. -/
def appSample : AppState := ⟨some sessionSample⟩

/-- Sample complete configuration. -/
def cfgSample : RconConfig :=
  ⟨[("host", "localhost"), ("port", "25575"), ("password", "pw")], true⟩

/-- Sample environment: probe succeeds, RCON connects, fresh session id 1. -/
def worldSample : ConnectWorld := ⟨ProbeOutcome.connectResult 0, true, 1⟩

/-- Sample give-item inputs with one selected enchantment. -/
def inpSample : GiveItemInputs := ⟨"Alex", "Stone", "1", true, [("Sharpness", 1)]⟩

/-- Sample server: the enchanted give fails with an `Invalid` response, anything
else succeeds. -/
def respSample : String → Bool × String := fun c =>
  if c = "/give Alex minecraft:stone[enchantments=\x7bsharpness:1\x7d] 1" then
    (true, "Invalid component")
  else (true, "Gave 1 [Stone] to Alex")

/-! Lemmas about the stable descending ranking. -/

theorem mem_ordInsertDesc (x a : String × Nat) (l : List (String × Nat)) :
    a ∈ ordInsertDesc x l ↔ a = x ∨ a ∈ l := by
  induction l with
  | nil => simp [ordInsertDesc]
  | cons y rest ih =>
    by_cases h : y.2 ≤ x.2
    · simp [ordInsertDesc, h]
    · simp only [ordInsertDesc, if_neg h, List.mem_cons, ih]
      tauto

theorem pairwise_ordInsertDesc (x : String × Nat) {l : List (String × Nat)}
    (h : l.Pairwise (fun a b => b.2 ≤ a.2)) :
    (ordInsertDesc x l).Pairwise (fun a b => b.2 ≤ a.2) := by
  induction l with
  | nil => simp [ordInsertDesc]
  | cons y rest ih =>
    rw [List.pairwise_cons] at h
    obtain ⟨hy, hrest⟩ := h
    by_cases hxy : y.2 ≤ x.2
    · simp only [ordInsertDesc, if_pos hxy]
      rw [List.pairwise_cons]
      refine ⟨?_, ?_⟩
      · intro z hz
        rcases List.mem_cons.mp hz with rfl | hz'
        · exact hxy
        · exact le_trans (hy z hz') hxy
      · rw [List.pairwise_cons]
        exact ⟨hy, hrest⟩
    · simp only [ordInsertDesc, if_neg hxy]
      rw [List.pairwise_cons]
      refine ⟨?_, ih hrest⟩
      intro z hz
      rcases (mem_ordInsertDesc x z rest).mp hz with rfl | hz'
      · omega
      · exact hy z hz'

theorem pairwise_sortScoresDesc (l : List (String × Nat)) :
    (sortScoresDesc l).Pairwise (fun a b => b.2 ≤ a.2) := by
  induction l with
  | nil => simp [sortScoresDesc]
  | cons x rest ih => exact pairwise_ordInsertDesc x ih

theorem mem_sortScoresDesc (a : String × Nat) (l : List (String × Nat)) :
    a ∈ sortScoresDesc l ↔ a ∈ l := by
  induction l with
  | nil => simp [sortScoresDesc]
  | cons x rest ih =>
    simp only [sortScoresDesc]
    rw [mem_ordInsertDesc, ih]
    simp [List.mem_cons]

theorem ordInsertDesc_of_le (x : String × Nat) {l : List (String × Nat)}
    (h : ∀ z ∈ l, z.2 ≤ x.2) : ordInsertDesc x l = x :: l := by
  cases l with
  | nil => rfl
  | cons y rest => simp only [ordInsertDesc, if_pos (h y (List.mem_cons_self y rest))]

theorem filter_ordInsertDesc (p : String × Nat → Bool) (x : String × Nat)
    {l : List (String × Nat)} (hl : l.Pairwise (fun a b => b.2 ≤ a.2)) :
    (ordInsertDesc x l).filter p =
      if p x then ordInsertDesc x (l.filter p) else l.filter p := by
  induction l with
  | nil =>
    by_cases hx : p x <;> simp [ordInsertDesc, List.filter_cons, hx]
  | cons y rest ih =>
    rw [List.pairwise_cons] at hl
    obtain ⟨hy, hrest⟩ := hl
    by_cases hxy : y.2 ≤ x.2
    · simp only [ordInsertDesc, if_pos hxy]
      by_cases hx : p x
      · rw [List.filter_cons_of_pos hx, if_pos hx, ordInsertDesc_of_le]
        intro z hz
        rcases List.mem_cons.mp (List.mem_of_mem_filter hz) with rfl | hzr
        · exact hxy
        · exact le_trans (hy z hzr) hxy
      · rw [List.filter_cons_of_neg ?hneg, if_neg hx]
        case hneg => exact hx
    · simp only [ordInsertDesc, if_neg hxy]
      rw [List.filter_cons, List.filter_cons, ih hrest]
      by_cases hpy : p y = true
      · by_cases hx : p x = true
        · have hins : ordInsertDesc x (y :: rest.filter p)
              = y :: ordInsertDesc x (rest.filter p) := by
            simp only [ordInsertDesc, if_neg hxy]
          simp [hpy, hx, hins]
        · rw [Bool.not_eq_true] at hx
          simp [hpy, hx]
      · rw [Bool.not_eq_true] at hpy
        simp [hpy]

theorem filter_sortScoresDesc (p : String × Nat → Bool) (l : List (String × Nat)) :
    (sortScoresDesc l).filter p = sortScoresDesc (l.filter p) := by
  induction l with
  | nil => rfl
  | cons x rest ih =>
    simp only [sortScoresDesc, List.filter_cons]
    rw [filter_ordInsertDesc p x (pairwise_sortScoresDesc rest), ih]
    by_cases hx : p x = true
    · simp only [hx, if_true, sortScoresDesc]
    · rw [Bool.not_eq_true] at hx
      simp [hx]

theorem sortScoresDesc_of_const {s : Nat} {l : List (String × Nat)}
    (h : ∀ a ∈ l, a.2 = s) : sortScoresDesc l = l := by
  induction l with
  | nil => rfl
  | cons x rest ih =>
    simp only [sortScoresDesc]
    rw [ih (fun a ha => h a (List.mem_cons_of_mem x ha))]
    apply ordInsertDesc_of_le
    intro z hz
    rw [h z (List.mem_cons_of_mem x hz), h x (List.mem_cons_self x rest)]

theorem length_ordInsertDesc (x : String × Nat) (l : List (String × Nat)) :
    (ordInsertDesc x l).length = l.length + 1 := by
  induction l with
  | nil => rfl
  | cons y rest ih => by_cases h : y.2 ≤ x.2 <;> simp [ordInsertDesc, h, ih]

theorem length_sortScoresDesc (l : List (String × Nat)) :
    (sortScoresDesc l).length = l.length := by
  induction l with
  | nil => rfl
  | cons x rest ih => simp [sortScoresDesc, length_ordInsertDesc, ih]

theorem countP_sortScoresDesc (p : String × Nat → Bool) (l : List (String × Nat)) :
    (sortScoresDesc l).countP p = l.countP p := by
  rw [List.countP_eq_length_filter, List.countP_eq_length_filter,
    filter_sortScoresDesc, length_sortScoresDesc]

theorem all_take_of_countP {p : String × Nat → Bool}
    (hmono : ∀ a b : String × Nat, b.2 ≤ a.2 → p b = true → p a = true) :
    ∀ (l : List (String × Nat)) (lim : Nat),
      l.Pairwise (fun a b => b.2 ≤ a.2) → lim ≤ l.countP p →
      ∀ a ∈ l.take lim, p a = true := by
  intro l
  induction l with
  | nil =>
    intro lim _ _ a ha
    simp at ha
  | cons y rest ih =>
    intro lim hpw hcount a ha
    rw [List.pairwise_cons] at hpw
    obtain ⟨hy, hrest⟩ := hpw
    cases lim with
    | zero => simp at ha
    | succ n =>
      have hpy : p y = true := by
        by_contra hny
        have hzero : (y :: rest).countP p = 0 := by
          rw [List.countP_eq_zero]
          intro b hb
          rcases List.mem_cons.mp hb with rfl | hbr
          · exact hny
          · intro hpb
            exact hny (hmono y b (hy b hbr) hpb)
        omega
      rw [List.take_succ_cons] at ha
      rcases List.mem_cons.mp ha with rfl | har
      · exact hpy
      · have hc : (y :: rest).countP p = rest.countP p + 1 := by
          simp [List.countP_cons, hpy]
        exact ih n hrest (by omega) a har

theorem mem_scoredLabels_of_mem_extract {a : String × Nat} {query : String}
    {labels : List String} {lim : Nat} (h : a ∈ extractBests query labels lim) :
    a ∈ scoredLabels query labels := by
  unfold extractBests at h
  exact (mem_sortScoresDesc a _).mp (List.mem_of_mem_take h)

theorem matchScore_empty_query (l : String) : matchScore "" l = 0 := rfl

/-- C1: for every query, catalog type, limit, and minScore, the sequence
returned by `fuzzy_search_data` is ordered by score descending, and any two
results with equal score appear in the same relative order as their entries
appear in the catalog (the ranking is a stable sort). -/
theorem c1_fuzzy_search_sorted_stable (td : TypedData) (query dataType : String)
    (limit : Nat) (minScore : Int) :
    (fuzzy_search_data td query dataType limit minScore).Pairwise
        (fun a b => b.2 ≤ a.2)
    ∧ ∀ s : Nat,
        List.Sublist
          ((fuzzy_search_data td query dataType limit minScore).filter
            (fun p => p.2 == s))
          ((scoredLabels query (catalogLabels td dataType)).filter
            (fun p => p.2 == s)) := by
  have hsub : List.Sublist (fuzzy_search_data td query dataType limit minScore)
      (sortScoresDesc (scoredLabels query (catalogLabels td dataType))) :=
    List.Sublist.trans (List.filter_sublist _) (List.take_sublist _ _)
  constructor
  · exact List.Pairwise.sublist hsub (pairwise_sortScoresDesc _)
  · intro s
    have h2 := hsub.filter (fun p => p.2 == s)
    rw [filter_sortScoresDesc] at h2
    have hconst : ∀ a ∈ (scoredLabels query (catalogLabels td dataType)).filter
        (fun p => p.2 == s), a.2 = s := by
      intro a ha
      exact eq_of_beq (List.mem_filter.mp ha).2
    rw [sortScoresDesc_of_const hconst] at h2
    exact h2

/-- C2: `fuzzy_search_data` applies the `minScore` filter after ranking, not
before: it equals the top-`limit` ranking of the whole catalog pruned by the
threshold, and when `limit` does not exceed the number of entries scoring
above the threshold the pruning removes nothing, so the result is exactly the
top-`limit` list. -/
theorem c2_rank_then_filter (td : TypedData) (query dataType : String)
    (limit : Nat) (minScore : Int) :
    fuzzy_search_data td query dataType limit minScore
        = (extractBests query (catalogLabels td dataType) limit).filter
            (fun p => decide (minScore < (p.2 : Int)))
    ∧ (limit ≤ countAboveThreshold td query dataType minScore →
        fuzzy_search_data td query dataType limit minScore
          = extractBests query (catalogLabels td dataType) limit) := by
  refine ⟨rfl, ?_⟩
  intro hlim
  have hmono : ∀ a b : String × Nat, b.2 ≤ a.2 →
      decide (minScore < (b.2 : Int)) = true → decide (minScore < (a.2 : Int)) = true := by
    intro a b hle hb
    rw [decide_eq_true_iff] at hb ⊢
    omega
  have hcount : limit ≤ (sortScoresDesc (scoredLabels query
      (catalogLabels td dataType))).countP (fun p => decide (minScore < (p.2 : Int))) := by
    rw [countP_sortScoresDesc]
    exact hlim
  unfold fuzzy_search_data
  rw [List.filter_eq_self]
  intro a ha
  unfold extractBests at ha
  exact all_take_of_countP hmono _ limit (pairwise_sortScoresDesc _) hcount a ha

/-- C2 witness: on the sample catalog with query `"diam"`, limit 1 and
threshold 30, two entries score above the threshold, so the result is exactly
the top-1 list. -/
theorem c2_rank_then_filter_witness :
    fuzzy_search_data tdSample "diam" "item" 1 30
        = (extractBests "diam" (catalogLabels tdSample "item") 1).filter
            (fun p => decide ((30 : Int) < (p.2 : Int)))
    ∧ fuzzy_search_data tdSample "diam" "item" 1 30
        = extractBests "diam" (catalogLabels tdSample "item") 1 :=
  ⟨(c2_rank_then_filter tdSample "diam" "item" 1 30).1,
   (c2_rank_then_filter tdSample "diam" "item" 1 30).2 (by decide)⟩

/-- C3: with the empty query every label scores 0, so for every catalog type,
limit, and nonnegative minScore (the spec's domain for the threshold) the
search returns the empty sequence — no catalog dump. -/
theorem c3_empty_query (td : TypedData) (dataType : String) (limit : Nat)
    (minScore : Int) (h : 0 ≤ minScore) :
    fuzzy_search_data td "" dataType limit minScore = [] := by
  unfold fuzzy_search_data
  rw [List.filter_eq_nil_iff]
  intro a ha
  have hmem := mem_scoredLabels_of_mem_extract ha
  unfold scoredLabels at hmem
  obtain ⟨l, _, rfl⟩ := List.mem_map.mp hmem
  rw [matchScore_empty_query]
  simp only [decide_eq_true_eq]
  omega

/-- C3 witness: concrete evaluation at the sample catalog with the default
threshold. -/
theorem c3_empty_query_witness :
    fuzzy_search_data tdSample "" "item" 10 30 = [] :=
  c3_empty_query tdSample "item" 10 30 (by decide)

/-- C4: fuzzy search is total — the embedding is a total function of every
query, catalog type, limit and minScore — and whenever no catalog label scores
above `minScore` it returns the empty sequence rather than failing. -/
theorem c4_no_match_empty (td : TypedData) (query dataType : String)
    (limit : Nat) (minScore : Int)
    (h : ∀ e ∈ tdGet td dataType, (matchScore query e.displayName : Int) ≤ minScore) :
    fuzzy_search_data td query dataType limit minScore = [] := by
  unfold fuzzy_search_data
  rw [List.filter_eq_nil_iff]
  intro a ha
  have hmem := mem_scoredLabels_of_mem_extract ha
  unfold scoredLabels catalogLabels at hmem
  rw [List.map_map] at hmem
  obtain ⟨e, he, rfl⟩ := List.mem_map.mp hmem
  simp only [Function.comp_apply, decide_eq_true_eq]
  have hle := h e he
  omega

/-- C4 witness: a query matching nothing on the sample catalog returns the
empty sequence. -/
theorem c4_no_match_empty_witness :
    fuzzy_search_data tdSample "zzzz" "item" 10 30 = [] :=
  c4_no_match_empty tdSample "zzzz" "item" 10 30 (by decide)

/-- Whatever `connect_rcon` does, it issues no session teardown, and any session
it returns is the freshly constructed one. -/
theorem connect_rcon_no_teardown (cfg : RconConfig) (w : ConnectWorld) :
    (connect_rcon cfg w).2.filter isDisconnectEvent = []
    ∧ ∀ sNew : RconSession, (connect_rcon cfg w).1 = some sNew →
        sNew.sid = w.freshSid := by
  unfold connect_rcon
  by_cases h1 : cfg.configFound = false
  · rw [if_pos h1]
    exact ⟨rfl, by intro sNew h; simp at h⟩
  · rw [if_neg h1]
    by_cases h2 : missingSettings cfg ≠ []
    · rw [if_pos h2]
      exact ⟨rfl, by intro sNew h; simp at h⟩
    · rw [if_neg h2]
      by_cases h3 : (test_connection (cfgGet cfg "host") (pyToNat (cfgGet cfg "port"))
          w.probeOutcome).1 = false
      · rw [if_pos h3]
        refine ⟨by simp [isDisconnectEvent], ?_⟩
        intro sNew h
        simp at h
      · rw [if_neg h3]
        by_cases h4 : w.rconConnectOk = true
        · rw [if_pos h4]
          refine ⟨by simp [isDisconnectEvent], ?_⟩
          intro sNew h
          rw [Option.some.injEq] at h
          rw [← h]
        · rw [if_neg h4]
          refine ⟨by simp [isDisconnectEvent], ?_⟩
          intro sNew h
          simp at h

/-- C5 counterexample: with a live session (id 0) and a healthy environment the
entire effect trace of `reconnect_rcon` is the probe and the fresh connect — no
disconnect of the existing session is ever issued, so the reconnect operation
does not tear the old Session down before reconnecting. -/
theorem c5_reconnect_counterexample :
    appSample.mcr = some sessionSample
    ∧ (reconnect_rcon appSample cfgSample worldSample).2
        = [RconEvent.probe "localhost" 25575, RconEvent.sessionConnect 1] :=
  ⟨rfl, by decide⟩

/-- C5 (amended): `reconnect_rcon` issues no teardown of the prior session — it
is dropped, not disconnected — and it never resets the prior session in place:
whenever it yields a session, that session is the freshly constructed one,
which under the runtime guarantee that a new construction is distinct shares no
state with the previous session. -/
theorem c5_reconnect_fresh_pair (st : AppState) (cfg : RconConfig) (w : ConnectWorld)
    (hfresh : ∀ s : RconSession, st.mcr = some s → w.freshSid ≠ s.sid) :
    (reconnect_rcon st cfg w).2.filter isDisconnectEvent = []
    ∧ (∀ s sNew : RconSession, st.mcr = some s →
        (reconnect_rcon st cfg w).1.mcr = some sNew →
        sNew.sid = w.freshSid ∧ sNew.sid ≠ s.sid) := by
  have hc := connect_rcon_no_teardown cfg w
  refine ⟨hc.1, ?_⟩
  intro s sNew hs hNew
  have hsid := hc.2 sNew hNew
  refine ⟨hsid, ?_⟩
  rw [hsid]
  exact hfresh s hs

/-- C5 witness: the amended reconnect property at the sample state and
environment. -/
theorem c5_reconnect_fresh_pair_witness :
    (reconnect_rcon appSample cfgSample worldSample).2.filter isDisconnectEvent = [] :=
  (c5_reconnect_fresh_pair appSample cfgSample worldSample (by
    intro s hs
    have h : sessionSample = s := Option.some.inj hs
    rw [← h]
    decide)).1

/-- C6 counterexample: a refused connection (errno 111) and a connect timeout
(errno 110) produce identical probe results, including the identical diagnostic
message — the connection test does not distinguish a refused connection from a
connect timeout. -/
theorem c6_probe_counterexample :
    test_connection "localhost" 25575 (ProbeOutcome.connectResult 111)
        = test_connection "localhost" 25575 (ProbeOutcome.connectResult 110)
    ∧ (test_connection "localhost" 25575 (ProbeOutcome.connectResult 111)).2
        = "Port 25575 is not accessible" :=
  ⟨by decide, by decide⟩

/-- C6 (amended): the probe reports success exactly on connect result 0 and
distinguishes DNS resolution failure by a dedicated message, but every nonzero
connect result — refused connection and connect timeout alike — yields the same
port-not-accessible diagnostic. -/
theorem c6_probe_classification (host : String) (port : Nat) :
    (∀ e, test_connection host port (ProbeOutcome.dnsFailure e)
        = (false, "DNS resolution failed for " ++ host ++ ": " ++ e))
    ∧ test_connection host port (ProbeOutcome.connectResult 0)
        = (true, "Connection successful")
    ∧ (∀ r : Int, r ≠ 0 → test_connection host port (ProbeOutcome.connectResult r)
        = (false, "Port " ++ toString port ++ " is not accessible")) := by
  refine ⟨fun e => rfl, rfl, fun r hr => ?_⟩
  simp [test_connection, hr]

/-- C6 witness: the amended classification evaluated at a concrete refused
connection. -/
theorem c6_probe_classification_witness :
    test_connection "localhost" 25575 (ProbeOutcome.connectResult 111)
        = (false, "Port " ++ toString 25575 ++ " is not accessible") :=
  (c6_probe_classification "localhost" 25575).2.2 111 (by decide)

/-- C7: for each supported catalog type, `load_data` stores exactly the
transformed contents of that type's own file, and the empty catalog when that
file is missing — loading completes for every data directory, and the other
catalogs are unaffected. -/
theorem c7_load_data_missing_file (dir : DataDir) (t : String)
    (ht : t ∈ ["item", "effect", "enchantment"]) :
    (load_data dir).lookup t = some (fileCatalog dir t)
    ∧ (dir (t ++ "s.json") = none → fileCatalog dir t = []) := by
  refine ⟨?_, ?_⟩
  · simp only [List.mem_cons, List.not_mem_nil, or_false] at ht
    rcases ht with rfl | rfl | rfl <;> rfl
  · intro h
    unfold fileCatalog
    rw [h]

/-- C7 witness: with every data file missing, the item catalog loads as empty. -/
theorem c7_load_data_missing_file_witness :
    (load_data (fun _ => none)).lookup "item" = some [] := by
  have h := c7_load_data_missing_file (fun _ => none) "item" (by decide)
  rw [h.1, h.2 rfl]

/-- C8: when enchantments are requested and the enchanted give command succeeds
at the transport level, then if its response contains one of the known failure
substrings the client sends exactly one more command — the plain give with the
same player, item and amount — and reports the downgrade; if the response
contains none of the substrings, no second command is sent. -/
theorem c8_enchant_retry (td : TypedData) (inp : GiveItemInputs)
    (responder : String → Bool × String)
    (hv : validate_command_inputs inp.itemName inp.player inp.amount = true)
    (he : inp.applyEnchants = true)
    (hne : inp.enchants ≠ [])
    (h1 : (responder (enchantedGiveCmd td inp.player
        (get_minecraft_id td inp.itemName "item") inp.amount inp.enchants)).1 = true) :
    (failureResponse (responder (enchantedGiveCmd td inp.player
          (get_minecraft_id td inp.itemName "item") inp.amount inp.enchants)).2 = true →
        (send_item_command td true inp responder).1
            = [enchantedGiveCmd td inp.player (get_minecraft_id td inp.itemName "item")
                inp.amount inp.enchants,
               plainGiveCmd inp.player (get_minecraft_id td inp.itemName "item") inp.amount]
        ∧ ((responder (plainGiveCmd inp.player (get_minecraft_id td inp.itemName "item")
              inp.amount)).1 = true →
            (send_item_command td true inp responder).2
              = "⚠️ Item given without enchantments: " ++ inp.itemName ++ " to " ++ inp.player))
    ∧ (failureResponse (responder (enchantedGiveCmd td inp.player
          (get_minecraft_id td inp.itemName "item") inp.amount inp.enchants)).2 = false →
        (send_item_command td true inp responder).1
            = [enchantedGiveCmd td inp.player (get_minecraft_id td inp.itemName "item")
                inp.amount inp.enchants]) := by
  have hne' : inp.enchants.isEmpty = false := by
    cases h : inp.enchants with
    | nil => exact absurd h hne
    | cons a l => rfl
  constructor
  · intro hf
    constructor
    · simp only [send_item_command, hv, he, hne', h1, hf, Bool.not_true, Bool.not_false,
        Bool.and_self, Bool.true_and, Bool.false_eq_true, if_false, if_true, ite_true,
        ite_false]
      split <;> rfl
    · intro h2
      simp only [send_item_command, hv, he, hne', h1, hf, h2, Bool.not_true, Bool.not_false,
        Bool.and_self, Bool.true_and, Bool.false_eq_true, if_false, if_true, ite_true,
        ite_false]
  · intro hf
    simp only [send_item_command, hv, he, hne', h1, hf, Bool.not_true, Bool.not_false,
      Bool.and_self, Bool.true_and, Bool.false_and, Bool.and_false, Bool.false_eq_true,
      if_false, if_true, ite_true, ite_false]

/-- C8 witness: concrete two-step run — the enchanted give draws an `Invalid`
response, the client retries once with the plain give and reports the
downgrade. -/
theorem c8_enchant_retry_witness :
    (send_item_command tdSample true inpSample respSample).1
        = ["/give Alex minecraft:stone[enchantments=\x7bsharpness:1\x7d] 1",
           "/give Alex minecraft:stone 1"]
    ∧ (send_item_command tdSample true inpSample respSample).2
        = "⚠️ Item given without enchantments: Stone to Alex" := by
  have h := (c8_enchant_retry tdSample inpSample respSample (by decide) (by decide)
      (by decide) (by decide)).1 (by decide)
  refine ⟨?_, ?_⟩
  · rw [h.1]
    decide
  · rw [h.2 (by decide)]
    decide

/-- Folding the entry map over entries none of which carries the display name
leaves the accumulator unchanged. -/
theorem entryMapFold_of_not_mem {name : String} :
    ∀ (l : List CatalogEntry) (acc : Option String),
      (∀ e ∈ l, e.displayName ≠ name) →
      l.foldl (fun acc e => if e.displayName = name then some e.canonicalId else acc) acc
        = acc := by
  intro l
  induction l with
  | nil => intro acc _; rfl
  | cons a rest ih =>
    intro acc h
    rw [List.foldl_cons, if_neg (h a (List.mem_cons_self a rest))]
    exact ih acc (fun e he => h e (List.mem_cons_of_mem a he))

/-- With pairwise-distinct display names, the entry-map fold finds the entry
carrying the display name. -/
theorem entryMapFold_of_mem {name : String} :
    ∀ (l : List CatalogEntry) (acc : Option String),
      l.Pairwise (fun a b => a.displayName ≠ b.displayName) →
      ∀ e ∈ l, e.displayName = name →
      l.foldl (fun acc e => if e.displayName = name then some e.canonicalId else acc) acc
        = some e.canonicalId := by
  intro l
  induction l with
  | nil =>
    intro acc _ e he
    simp at he
  | cons a rest ih =>
    intro acc hpw e he hname
    rw [List.pairwise_cons] at hpw
    obtain ⟨ha, hrest⟩ := hpw
    rcases List.mem_cons.mp he with rfl | her
    · rw [List.foldl_cons, if_pos hname]
      apply entryMapFold_of_not_mem rest
      intro b hb
      rw [← hname]
      exact Ne.symm (ha b hb)
    · rw [List.foldl_cons]
      exact ih _ hrest e her hname

/-- C9: `get_minecraft_id` is total — with catalog-unique display names a name
matching some entry resolves to that entry's canonical identifier, and a name
matching no entry resolves, without failing, to `minecraft:` followed by the
name lowercased with spaces replaced by underscores. -/
theorem c9_get_minecraft_id_total (td : TypedData) (name dataType : String) :
    ((tdGet td dataType).Pairwise (fun a b => a.displayName ≠ b.displayName) →
      ∀ e ∈ tdGet td dataType, e.displayName = name →
        get_minecraft_id td name dataType = e.canonicalId)
    ∧ ((∀ e ∈ tdGet td dataType, e.displayName ≠ name) →
      get_minecraft_id td name dataType
        = "minecraft:" ++ pyReplace (pyLower name) " " "_") := by
  constructor
  · intro hpw e he hname
    unfold get_minecraft_id entryMapLookup
    rw [entryMapFold_of_mem (tdGet td dataType) none hpw e he hname]
    rfl
  · intro h
    unfold get_minecraft_id entryMapLookup
    rw [entryMapFold_of_not_mem (tdGet td dataType) none h]
    rfl

/-- C9 witness: resolution of a matching name and of a missing name on the
sample catalog. -/
theorem c9_get_minecraft_id_total_witness :
    get_minecraft_id tdSample "Diamond Sword" "item" = "minecraft:diamond_sword"
    ∧ get_minecraft_id tdSample "Netherite Axe" "item" = "minecraft:netherite_axe" := by
  have h := c9_get_minecraft_id_total tdSample "Diamond Sword" "item"
  have h2 := c9_get_minecraft_id_total tdSample "Netherite Axe" "item"
  refine ⟨h.1 (by decide) ⟨"Diamond Sword", "minecraft:diamond_sword", none⟩ (by decide) rfl, ?_⟩
  rw [h2.2 (by decide)]
  decide

/-- Dict insertion never empties a mapping. -/
theorem dictInsert_ne_nil {α : Type} (d : List (String × α)) (k : String) (v : α) :
    dictInsert d k v ≠ [] := by
  unfold dictInsert
  split
  · intro h
    rename_i hany
    rw [List.map_eq_nil_iff] at h
    subst h
    simp at hany
  · intro h
    simp at h

/-- Folding dict insertions over any list keeps a nonempty accumulator
nonempty. -/
theorem foldlInsert_ne_nil :
    ∀ (l : List (String × String)) (acc : List (String × String)), acc ≠ [] →
      l.foldl (fun locs kv => dictInsert locs kv.1 kv.2) acc ≠ [] := by
  intro l
  induction l with
  | nil => intro acc h; exact h
  | cons kv rest ih =>
    intro acc _
    rw [List.foldl_cons]
    exact ih _ (dictInsert_ne_nil acc kv.1 kv.2)

/-- The location loop is the dict build over exactly the qualifying keys,
each mapped to its binding. -/
theorem foldl_locationStep_eq :
    ∀ (config : List (String × String)) (acc : List (String × String)),
      config.foldl locationStep acc
        = ((config.filter qualifiesLocation).map locationBinding).foldl
            (fun locs kv => dictInsert locs kv.1 kv.2) acc := by
  intro config
  induction config with
  | nil =>
    intro acc
    simp
  | cons kv rest ih =>
    intro acc
    rw [List.foldl_cons, List.filter_cons]
    by_cases h1 : kv.1.startsWith "location_" = true
    · by_cases h2 : (kv.1.drop 9) = ""
      · have hq : qualifiesLocation kv = false := by
          simp [qualifiesLocation, h1, h2]
        have hstep : locationStep acc kv = acc := by
          unfold locationStep
          rw [if_neg (by simp [h1]), if_pos (by simp [h2])]
        rw [hq, hstep, if_neg (by simp)]
        exact ih acc
      · by_cases h3 : 3 ≤ (pySplit (pyReplace kv.2 "," " ")).length
        · have hq : qualifiesLocation kv = true := by
            simp [qualifiesLocation, h1, h2, h3]
        
          have hstep : locationStep acc kv
              = dictInsert acc (locationBinding kv).1 (locationBinding kv).2 := by
            unfold locationStep
            rw [if_neg (by simp [h1]), if_neg (by simp [h2]), if_neg (Nat.not_lt.mpr h3)]
            rfl
          rw [hq, hstep, if_pos rfl, List.map_cons, List.foldl_cons]
          exact ih _
        · have hq : qualifiesLocation kv = false := by
            simp [qualifiesLocation, h1, h2, h3]
          have hstep : locationStep acc kv = acc := by
            unfold locationStep
            rw [if_neg (by simp [h1]), if_neg (by simp [h2]),
              if_pos (by omega : (pySplit (pyReplace kv.2 "," " ")).length < 3)]
          rw [hq, hstep, if_neg (by simp)]
          exact ih acc
    · have hq : qualifiesLocation kv = false := by
        simp [qualifiesLocation, h1]
      have hstep : locationStep acc kv = acc := by
        unfold locationStep
        rw [if_pos (by simp [h1])]
      rw [hq, hstep, if_neg (by simp)]
      exact ih acc

/-- C10: the location mapping is never empty; the loop binds exactly the
qualifying keys (prefix `location_` with nonempty remainder, value splitting
into at least 3 tokens) to their first 3 tokens joined by spaces, and when no
key qualifies the result is exactly the single default entry. -/
theorem c10_locations_never_empty (config : List (String × String)) :
    load_locations_from_config config ≠ []
    ∧ load_locations_from_config config
        = (if config.filter qualifiesLocation = [] then [("Main Spawn", "0 64 0")]
           else ((config.filter qualifiesLocation).map locationBinding).foldl
               (fun locs kv => dictInsert locs kv.1 kv.2) []) := by
  have hchar : load_locations_from_config config
      = (if config.filter qualifiesLocation = [] then [("Main Spawn", "0 64 0")]
         else ((config.filter qualifiesLocation).map locationBinding).foldl
             (fun locs kv => dictInsert locs kv.1 kv.2) []) := by
    unfold load_locations_from_config
    rw [foldl_locationStep_eq]
    by_cases hq : config.filter qualifiesLocation = []
    · rw [hq]
      simp
    · have hne : ((config.filter qualifiesLocation).map locationBinding).foldl
          (fun locs kv => dictInsert locs kv.1 kv.2) [] ≠ [] := by
        cases h : config.filter qualifiesLocation with
        | nil => exact absurd h hq
        | cons kv rest =>
          rw [List.map_cons, List.foldl_cons]
          exact foldlInsert_ne_nil _ _ (dictInsert_ne_nil [] _ _)
      rw [if_neg hne, if_neg hq]
  refine ⟨?_, hchar⟩
  rw [hchar]
  by_cases hq : config.filter qualifiesLocation = []
  · rw [if_pos hq]
    simp
  · rw [if_neg hq]
    cases h : config.filter qualifiesLocation with
    | nil => exact absurd h hq
    | cons kv rest =>
      rw [List.map_cons, List.foldl_cons]
      exact foldlInsert_ne_nil _ _ (dictInsert_ne_nil [] _ _)
